import Mathlib

/-!
Verification of the CauseConnect web scraper (`Webscraper.py`).

The scraper's pure logic is shallowly embedded here:

* HTTP transport, HTML parsing and the regular-expression matchers are the
  spec's "external collaborators"; a fetched page is therefore modelled as a
  `Page` record holding their outputs: the discovered links, the raw
  email/phone/mission-pattern match lists, and the `'.'`-split sentence list
  of the page text.
* Python `set`s are modelled as duplicate-free lists built by
  insert-if-absent; `collections.Counter` is modelled as an association list
  in key-insertion order, which is exactly the order `Counter.most_common`
  uses to break ties (CPython's `sorted` is stable).
* Python's stable `sorted(...)` is modelled by `List.insertionSort`, which is
  also stable.
* The thread pool dispatches one job per discovered link; the pool is
  serialized into a fold over the link list (the spec requires all shared
  mutations to be applied under a serializing discipline).  A ghost field
  `fetch_log` records every URL for which the page fetch is invoked.
-/

namespace Webscraper

/-- `startsWithList p l` is true when `p` is an initial segment of `l`
(the primitive behind Python's substring test). -/
def startsWithList : List Char → List Char → Bool
  | [], _ => true
  | _ :: _, [] => false
  | a :: as, b :: bs => a == b && startsWithList as bs

/-- `containsSub p l` is true when `p` occurs contiguously inside `l`. -/
def containsSub (p : List Char) : List Char → Bool
  | [] => startsWithList p []
  | l@(_ :: rest) => startsWithList p l || containsSub p rest

/-- Python's `pat in hay` substring test on strings. -/
def substrOf (pat hay : String) : Bool :=
  containsSub pat.toList hay.toList

/-- Python's `str.lower()`, character by character. -/
def pyLower (s : String) : String :=
  String.mk (s.toList.map Char.toLower)

/-- Python's notion of whitespace stripped by `str.strip()`. -/
def pyWs (c : Char) : Bool :=
  c == ' ' || c == '\t' || c == '\n' || c == '\r' || c == '\x0b' || c == '\x0c'

/-- Strip leading and trailing whitespace from a character list. -/
def pyStripList (l : List Char) : List Char :=
  ((l.dropWhile pyWs).reverse.dropWhile pyWs).reverse

/-- Python's `str.strip()`. -/
def pyStrip (s : String) : String :=
  String.mk (pyStripList s.toList)

/-- The blacklist of `filter_valid_sentence` (Webscraper.py lines 32-35). -/
def common_invalid_phrases : List String :=
  ["learn more", "read more", "current coalitions", "details", "overview",
   "404", "page not found", "error", "not available"]

/-- `filter_valid_sentence` (Webscraper.py lines 30-40): a sentence is valid
when its stripped length lies in [10, 200] and it contains no blacklisted
phrase (the sentence is lowercased before the substring tests). -/
def filter_valid_sentence (sentence : String) : Bool :=
  if (pyStrip sentence).length < 10 || (pyStrip sentence).length > 200 then
    false
  else if common_invalid_phrases.any (fun phrase => substrOf phrase (pyLower sentence)) then
    false
  else
    true

/-- The keyword taxonomy of `classify_cause_and_count`
(Webscraper.py lines 44-52), in declaration order. -/
def categories : List (String × List String) :=
  [("environment", ["environment", "climate", "nature", "sustainability", "conservation", "green"]),
   ("animal", ["animal", "wildlife", "pet", "species", "habitat"]),
   ("education", ["education", "learning", "teaching", "school", "students", "literacy"]),
   ("healthcare", ["health", "medicine", "care", "hospital", "disease", "mental health"]),
   ("poverty", ["poverty", "hunger", "homeless", "basic needs", "food security", "inequality"]),
   ("human_rights", ["human rights", "justice", "freedom", "equality", "civil rights"]),
   ("children", ["children", "kids", "youth", "adolescents", "future generation"])]

/-- A `collections.Counter` over category names: an association list in key
insertion order.  CPython dicts preserve insertion order, and
`Counter.most_common` relies on that order for ties. -/
abbrev Tally := List (String × Nat)

/-- `counter[k] += 1`: bump the first entry for `k`, or append `(k, 1)`
when `k` is absent (dict insertion-order semantics). -/
def incKey (t : Tally) (k : String) : Tally :=
  match t with
  | [] => [(k, 1)]
  | (k0, c) :: rest => if k0 = k then (k0, c + 1) :: rest else (k0, c) :: incKey rest k

/-- `counter[k]` lookup, `0` when absent. -/
def tcount (t : Tally) (k : String) : Nat :=
  match t with
  | [] => 0
  | (k0, c) :: rest => if k0 = k then c else tcount rest k

/-- The keys currently present in a tally. -/
def tallyKeys (t : Tally) : List String :=
  t.map Prod.fst

/-- The inner keyword loop of `classify_cause_and_count`
(Webscraper.py lines 54-56): one increment per keyword occurring in the
lowercased sentence. -/
def classifyKeywords (cat : String) (kws : List String) (sentence : String) (t : Tally) : Tally :=
  kws.foldl (fun t kw => if substrOf kw (pyLower sentence) then incKey t cat else t) t

/-- `classify_cause_and_count` (Webscraper.py lines 42-56). -/
def classify_cause_and_count (sentence : String) (keyword_counter : Tally) : Tally :=
  categories.foldl (fun t c => classifyKeywords c.1 c.2 sentence t) keyword_counter

/-- The comparison used by `Counter.most_common()`: sort by count,
descending. -/
def countGe (a b : String × Nat) : Prop := b.2 ≤ a.2

instance : DecidableRel countGe := fun a b => inferInstanceAs (Decidable (b.2 ≤ a.2))

instance : IsTotal (String × Nat) countGe := ⟨fun a b => (Nat.le_total a.2 b.2).symm⟩

instance : IsTrans (String × Nat) countGe := ⟨fun _ _ _ h1 h2 => Nat.le_trans h2 h1⟩

/-- `Counter.most_common()`: the tally's entries sorted by descending count.
CPython uses the stable `sorted(..., reverse=True)` over the dict's
insertion order; `List.insertionSort` is stable, hence computes the same
list. -/
def most_common (t : Tally) : Tally :=
  t.insertionSort countGe

/-- `get_main_and_secondary_causes` (Webscraper.py lines 94-99). -/
def get_main_and_secondary_causes (keyword_counter : Tally) : String × String :=
  let sorted_causes := most_common keyword_counter
  let main_cause := match sorted_causes with
    | [] => "None"
    | p :: _ => p.1
  let secondary_cause := match sorted_causes with
    | _ :: q :: _ => q.1
    | _ => "None"
  (main_cause, secondary_cause)

/-- Position of a category name in the taxonomy's declaration order. -/
def declIdx (k : String) : Nat :=
  ((categories.map Prod.fst).indexOf k)

/-- Modelled from the spec: the spec's ranking rule for `ReportBuilder`,
"descending count with ties broken by the taxonomy's declaration order"
(the code itself has no such tie-break; this definition exists to be
compared with `most_common`). -/
def specDeclGe (a b : String × Nat) : Prop :=
  b.2 < a.2 ∨ (a.2 = b.2 ∧ declIdx a.1 ≤ declIdx b.1)

instance : DecidableRel specDeclGe := fun a b =>
  inferInstanceAs (Decidable (b.2 < a.2 ∨ (a.2 = b.2 ∧ declIdx a.1 ≤ declIdx b.1)))

/-- Modelled from the spec: ranking with the declaration-order tie-break. -/
def spec_rank (t : Tally) : Tally :=
  t.insertionSort specDeclGe

/-- Modelled from the spec: primary/secondary causes under the spec's
declaration-order tie-break. -/
def spec_get_main_and_secondary_causes (keyword_counter : Tally) : String × String :=
  let sorted_causes := spec_rank keyword_counter
  let main_cause := match sorted_causes with
    | [] => "None"
    | p :: _ => p.1
  let secondary_cause := match sorted_causes with
    | _ :: q :: _ => q.1
    | _ => "None"
  (main_cause, secondary_cause)

/-- The characters that disqualify an email candidate
(Webscraper.py line 66). -/
def bad_email_chars : List Char := ['?', '0', '_']

/-- The email validation step (Webscraper.py line 66): keep a candidate only
if it contains none of `?`, `0`, `_`. -/
def valid_emails (emails : List String) : List String :=
  emails.filter (fun email => !(bad_email_chars.any (fun c => email.toList.contains c)))

/-- `re.match(r'\d', phone)`: the first character is a digit. -/
def firstIsDigit (s : String) : Bool :=
  match s.toList with
  | [] => false
  | c :: _ => c.isDigit

/-- `phone.replace("-", "").replace(" ", "")` (Webscraper.py line 72). -/
def stripDashSpace (s : String) : String :=
  String.mk (s.toList.filter (fun c => !(c == '-' || c == ' ')))

/-- The phone validation step (Webscraper.py line 72): first character a
digit, and at least 7 characters remain after deleting hyphens and spaces. -/
def valid_phones (phones : List String) : List String :=
  phones.filter (fun phone => firstIsDigit phone && (stripDashSpace phone).length ≥ 7)

/-- The number of digit characters of a candidate; this is the "digit-only
length" the spec attributes to the phone filter (the code instead measures
the whole remaining string length after deleting hyphens and spaces). -/
def digitCount (s : String) : Nat :=
  s.toList.countP Char.isDigit

/-- The comparison used by `sorted(valid_mission_sentences, key=len)`:
ascending length. -/
def lenLe (a b : String) : Prop := a.length ≤ b.length

instance : DecidableRel lenLe := fun a b => inferInstanceAs (Decidable (a.length ≤ b.length))

instance : IsTotal String lenLe := ⟨fun a b => Nat.le_total a.length b.length⟩

instance : IsTrans String lenLe := ⟨fun _ _ _ h1 h2 => Nat.le_trans h1 h2⟩

/-- Python's stable `sorted(l, key=len)`. -/
def sortByLen (l : List String) : List String :=
  l.insertionSort lenLe

/-- `valid_mission_sentences` (Webscraper.py lines 78-80): the mission-pattern
matches passing `filter_valid_sentence`, each stripped. -/
def mission_candidates (missionMatches : List String) : List String :=
  (missionMatches.filter filter_valid_sentence).map pyStrip

/-- The capped append loop of Webscraper.py lines 83-87: walk the candidates
in ascending length order and append (re-stripped) while fewer than 3
sentences are held.  The loop's `break` and a skip agree on the final list
because the length never decreases. -/
def addMissionSentences (mission_sentences : List String) (valid : List String) : List String :=
  (sortByLen valid).foldl
    (fun ms sentence => if ms.length < 3 then ms ++ [pyStrip sentence] else ms)
    mission_sentences

/-- Python `set.add`: insert if absent (modelled on lists, keeping the
insertion order so that later truncation is deterministic in the model). -/
def setInsert (s : List String) (x : String) : List String :=
  if x ∈ s then s else s ++ [x]

/-- Python `set.update`: insert each element of a list. -/
def setUpdate (s : List String) (xs : List String) : List String :=
  xs.foldl setInsert s

/-- A fetched page, as seen through the external collaborators: the absolute
links returned by `find_links`, the raw `re.findall` results for the email,
phone and mission patterns, and the `text.split('.')` sentence list. -/
structure Page where
  links : List String
  emailMatches : List String
  phoneMatches : List String
  missionMatches : List String
  textSentences : List String
deriving DecidableEq

/-- The shared mutable state of one crawl (Webscraper.py lines 115-118),
plus a ghost `fetch_log` recording every URL passed to
`fetch_page_content`. -/
structure ScrapeState where
  visited : List String
  emails : List String
  phones : List String
  mission_sentences : List String
  keyword_counter : Tally
  fetch_log : List String
deriving DecidableEq

/-- The final report rows' content (Webscraper.py lines 142-165). -/
structure Report where
  emails : List String
  phones : List String
  main_cause : String
  secondary_cause : String
  mission_sentences : List String
deriving DecidableEq

/-- `extract_information` (Webscraper.py lines 58-92): validate and insert
email and phone candidates, append capped mission sentences, and classify
every valid sentence of the page text. -/
def extract_information (page : Page) (st : ScrapeState) : ScrapeState :=
  { st with
    emails := setUpdate st.emails (valid_emails page.emailMatches)
    phones := setUpdate st.phones (valid_phones page.phoneMatches)
    mission_sentences :=
      addMissionSentences st.mission_sentences (mission_candidates page.missionMatches)
    keyword_counter :=
      page.textSentences.foldl
        (fun t sentence =>
          if filter_valid_sentence sentence then classify_cause_and_count sentence t else t)
        st.keyword_counter }

/-- `scrape_single_page` (Webscraper.py lines 101-107): the body of one
dispatched job.  The link is claimed (marked visited) and fetched only when
it is unvisited and contains the base URL as a substring; a failed fetch
leaves the aggregation state untouched (but the claim stands). -/
def scrape_single_page (fetch : String → Option Page) (link base_url : String)
    (st : ScrapeState) : ScrapeState :=
  if link ∉ st.visited ∧ substrOf base_url link = true then
    let st1 := { st with
      visited := setInsert st.visited link
      fetch_log := st.fetch_log ++ [link] }
    match fetch link with
    | some page => extract_information page st1
    | none => st1
  else st

/-- The number of jobs submitted to the worker pool (Webscraper.py lines
134-137): one per discovered link, unconditionally. -/
def dispatched_jobs (main_page : Page) : Nat :=
  main_page.links.length

/-- The crawl of `scrape_website` up to the join barrier (Webscraper.py lines
109-139): fetch the seed (abort on failure), mark it visited, extract its
information, then run one job per discovered link.  The worker pool is
serialized into a fold; `none` is the fatal seed-unreachable abort. -/
def crawl_state (fetch : String → Option Page) (base_url : String) : Option ScrapeState :=
  match fetch base_url with
  | none => none
  | some main_page =>
    let st0 : ScrapeState :=
      { visited := [base_url], emails := [], phones := [], mission_sentences := [],
        keyword_counter := [], fetch_log := [base_url] }
    let st1 := extract_information main_page st0
    some (main_page.links.foldl (fun st link => scrape_single_page fetch link base_url st) st1)

/-- The report built after the join (Webscraper.py lines 142-165): causes
from the tally, emails and phones truncated to 3, mission sentences passed
through. -/
def buildReport (st : ScrapeState) : Report :=
  let causes := get_main_and_secondary_causes st.keyword_counter
  { emails := st.emails.take 3
    phones := st.phones.take 3
    main_cause := causes.1
    secondary_cause := causes.2
    mission_sentences := st.mission_sentences }

/-- `scrape_website` (Webscraper.py lines 109-167): `none` means the crawl
aborted with the fatal seed-unreachable message and wrote no CSV. -/
def scrape_website (fetch : String → Option Page) (base_url : String) : Option Report :=
  (crawl_state fetch base_url).map buildReport

/-- A page with no links and no extractable content. -/
def emptyPage : Page :=
  { links := [], emailMatches := [], phoneMatches := [], missionMatches := [],
    textSentences := [] }

/-- Seed page of the first C1 scenario: two same-origin links and one
cross-origin link. -/
def c1_seed_page : Page :=
  { emptyPage with links := ["s.org/a", "s.org/b", "x.com/a"] }

/-- Network of the first C1 scenario. -/
def c1_fetch : String → Option Page :=
  fun u => if u = "s.org" then some c1_seed_page else some emptyPage

/-- Seed page of the second C1 scenario: one cross-origin link whose text
contains the seed URL as a substring. -/
def c1_seed_page2 : Page :=
  { emptyPage with links := ["x.com/?u=s.org"] }

/-- Network of the second C1 scenario. -/
def c1_fetch2 : String → Option Page :=
  fun u => if u = "s.org" then some c1_seed_page2 else some emptyPage

/-- A tally reached by classifying a sentence about animals and then one
about the environment: two tied counts, "animal" inserted first. -/
def c3_tie_tally : Tally :=
  classify_cause_and_count "green" (classify_cause_and_count "wildlife" [])

/-- A tally reached by classifying "environment" three times and "wildlife"
once: environment counts 3, animal counts 1. -/
def c3_example_tally : Tally :=
  classify_cause_and_count "wildlife"
    (classify_cause_and_count "environment"
      (classify_cause_and_count "environment"
        (classify_cause_and_count "environment" [])))

/-- A network where every fetch fails. -/
def c8_fetch : String → Option Page :=
  fun _ => none

/-- Crawl state after a successful seed fetch of "s.org" with nothing yet
extracted. -/
def c8_st : ScrapeState :=
  { visited := ["s.org"], emails := [], phones := [], mission_sentences := [],
    keyword_counter := [], fetch_log := ["s.org"] }

/-- A seed page exercising every extraction channel. -/
def c4_seed_page : Page :=
  { links := ["s.org/a"],
    emailMatches := ["jane.doe@example.com"],
    phoneMatches := ["555-1234"],
    missionMatches := ["  our mission is to help wildlife  ", "our mission statement sentence"],
    textSentences := ["we protect the environment everywhere"] }

/-- Network serving `c4_seed_page` at the seed and an empty page
elsewhere. -/
def c4_fetch : String → Option Page :=
  fun u => if u = "s.org" then some c4_seed_page else some emptyPage

/-- The category names of the taxonomy, in declaration order. -/
def catNames : List String :=
  categories.map Prod.fst

/-- The number of trigger keywords of a category occurring in the lowercased
sentence: the amount `classify_cause_and_count` adds to that category. -/
def matchCnt (sentence : String) (kws : List String) : Nat :=
  kws.countP (fun kw => substrOf kw (pyLower sentence))

/-- The tally invariant: every present key is a taxonomy category name and
every present count is positive. -/
def TallyInv (t : Tally) : Prop :=
  ∀ p ∈ t, p.1 ∈ catNames ∧ 0 < p.2

/-- The per-crawl invariant behind at-most-once fetching: the fetch log is
duplicate-free and every fetched URL has been marked visited. -/
def FetchInv (st : ScrapeState) : Prop :=
  st.fetch_log.Nodup ∧ ∀ u ∈ st.fetch_log, u ∈ st.visited

end Webscraper

namespace Webscraper

lemma startsWithList_iff (p : List Char) :
    ∀ l : List Char, startsWithList p l = true ↔ ∃ t, p ++ t = l := by
  induction p with
  | nil =>
    intro l
    simp [startsWithList]
  | cons a as ih =>
    intro l
    cases l with
    | nil =>
      simp [startsWithList]
    | cons b bs =>
      simp only [startsWithList, Bool.and_eq_true, beq_iff_eq, ih, List.cons_append,
        List.cons.injEq]
      constructor
      · rintro ⟨rfl, t, rfl⟩
        exact ⟨t, rfl, rfl⟩
      · rintro ⟨t, rfl, rfl⟩
        exact ⟨rfl, t, rfl⟩

lemma containsSub_iff (p : List Char) :
    ∀ l : List Char, containsSub p l = true ↔ ∃ u v, u ++ p ++ v = l := by
  intro l
  induction l with
  | nil =>
    cases p with
    | nil => simp [containsSub, startsWithList]
    | cons a as => simp [containsSub, startsWithList]
  | cons b bs ih =>
    simp only [containsSub, Bool.or_eq_true, startsWithList_iff, ih]
    constructor
    · rintro (⟨t, ht⟩ | ⟨u, v, rfl⟩)
      · exact ⟨[], t, by simpa using ht⟩
      · exact ⟨b :: u, v, rfl⟩
    · rintro ⟨u, v, h⟩
      cases u with
      | nil =>
        exact Or.inl ⟨v, by simpa using h⟩
      | cons c u' =>
        simp only [List.cons_append, List.cons.injEq] at h
        exact Or.inr ⟨u', v, h.2⟩

lemma substrOf_iff (pat hay : String) :
    substrOf pat hay = true ↔ ∃ u v, u ++ pat.toList ++ v = hay.toList :=
  containsSub_iff pat.toList hay.toList

/-- Claim C7: `filter_valid_sentence` is a pure predicate returning `false`
exactly when the stripped sentence is shorter than 10 characters, longer
than 200 characters, or the lowercased sentence contains a blacklisted
phrase; it returns `true` otherwise (purity is immediate: it is a Lean
function of the sentence alone). -/
theorem filter_valid_sentence_false_iff (s : String) :
    filter_valid_sentence s = false ↔
      (pyStrip s).length < 10 ∨ 200 < (pyStrip s).length ∨
        ∃ phrase ∈ common_invalid_phrases,
          ∃ u v, u ++ phrase.toList ++ v = (pyLower s).toList := by
  unfold filter_valid_sentence
  by_cases h1 : (pyStrip s).length < 10 || (pyStrip s).length > 200
  · rw [if_pos h1]
    rcases Bool.or_eq_true _ _ |>.mp h1 with h | h
    · simp only [decide_eq_true_eq] at h
      simp [h]
    · simp only [decide_eq_true_eq] at h
      simp [h]
  · rw [if_neg h1]
    simp only [Bool.or_eq_true, decide_eq_true_eq, not_or, Bool.not_eq_true] at h1
    obtain ⟨h1a, h1b⟩ := h1
    simp only [decide_eq_true_eq, not_lt] at h1a h1b
    by_cases h2 : common_invalid_phrases.any (fun phrase => substrOf phrase (pyLower s))
    · rw [if_pos h2]
      simp only [List.any_eq_true, substrOf_iff] at h2
      simp only [true_iff]
      exact Or.inr (Or.inr h2)
    · rw [if_neg h2]
      simp only [List.any_eq_true, substrOf_iff, not_exists] at h2
      constructor
      · intro h
        exact absurd h (by simp)
      · rintro (h | h | ⟨phrase, hp, hsub⟩)
        · omega
        · omega
        · exact absurd (And.intro hp hsub) (h2 phrase)

lemma tcount_incKey (c k : String) :
    ∀ t : Tally, tcount (incKey t c) k = tcount t k + if c = k then 1 else 0 := by
  intro t
  induction t with
  | nil => by_cases h : c = k <;> simp [incKey, tcount, h]
  | cons p rest ih =>
    obtain ⟨k0, n⟩ := p
    by_cases h0 : k0 = c
    · by_cases hk : k0 = k
      · have hck : c = k := by rw [← h0, hk]
        simp [incKey, tcount, h0, hk, hck]
      · have hck : ¬ c = k := fun hh => hk (h0.trans hh)
        simp [incKey, tcount, h0, hk, hck]
    · by_cases hk : k0 = k
      · subst hk
        have hck : ¬ c = k0 := fun hh => h0 hh.symm
        simp [incKey, tcount, h0, hck]
      · simp [incKey, tcount, h0, hk, ih]

lemma tallyKeys_incKey_sub (c k : String) :
    ∀ t : Tally, k ∈ tallyKeys t → k ∈ tallyKeys (incKey t c) := by
  intro t
  induction t with
  | nil =>
    intro h
    simp [tallyKeys] at h
  | cons p rest ih =>
    obtain ⟨k0, n⟩ := p
    intro h
    by_cases h0 : k0 = c
    · rw [show incKey ((k0, n) :: rest) c = (k0, n + 1) :: rest from by simp [incKey, h0]]
      simpa [tallyKeys] using h
    · rw [show incKey ((k0, n) :: rest) c = (k0, n) :: incKey rest c from by simp [incKey, h0]]
      simp only [tallyKeys, List.map_cons, List.mem_cons] at h ⊢
      rcases h with h | h
      · exact Or.inl h
      · exact Or.inr (ih h)

lemma TallyInv_incKey {c : String} (hc : c ∈ catNames) :
    ∀ {t : Tally}, TallyInv t → TallyInv (incKey t c) := by
  intro t
  induction t with
  | nil =>
    intro _ p hp
    simp only [incKey, List.mem_singleton] at hp
    subst hp
    exact ⟨hc, Nat.one_pos⟩
  | cons q rest ih =>
    intro h
    obtain ⟨k0, n⟩ := q
    have hq := h (k0, n) (List.mem_cons_self _ _)
    have hrest : TallyInv rest := fun p hp => h p (List.mem_cons_of_mem _ hp)
    by_cases h0 : k0 = c
    · intro p hp
      rw [show incKey ((k0, n) :: rest) c = (k0, n + 1) :: rest from by simp [incKey, h0]] at hp
      rcases List.mem_cons.mp hp with heq | hp
      · subst heq
        exact ⟨hq.1, Nat.succ_pos n⟩
      · exact hrest p hp
    · intro p hp
      rw [show incKey ((k0, n) :: rest) c = (k0, n) :: incKey rest c from by simp [incKey, h0]] at hp
      rcases List.mem_cons.mp hp with heq | hp
      · subst heq
        exact hq
      · exact ih hrest p hp

lemma tcount_classifyKeywords (s : String) (cat : String) :
    ∀ (kws : List String) (t : Tally) (k : String),
      tcount (classifyKeywords cat kws s t) k
        = tcount t k + if cat = k then matchCnt s kws else 0 := by
  intro kws
  induction kws with
  | nil =>
    intro t k
    by_cases h : cat = k <;> simp [classifyKeywords, matchCnt, h]
  | cons kw rest ih =>
    intro t k
    simp only [classifyKeywords, List.foldl_cons] at ih ⊢
    rw [ih]
    by_cases hm : substrOf kw (pyLower s) = true
    · rw [if_pos hm, tcount_incKey]
      by_cases hk : cat = k
      · simp [hk, matchCnt, List.countP_cons, hm]
        omega
      · simp [hk]
    · rw [if_neg hm]
      by_cases hk : cat = k
      · simp only [hk, if_pos rfl, matchCnt, List.countP_cons, hm]
        simp
      · simp [hk]

lemma tallyKeys_classifyKeywords_sub (s : String) (cat : String) :
    ∀ (kws : List String) (t : Tally) (k : String),
      k ∈ tallyKeys t → k ∈ tallyKeys (classifyKeywords cat kws s t) := by
  intro kws
  induction kws with
  | nil =>
    intro t k hk
    simpa [classifyKeywords] using hk
  | cons kw rest ih =>
    intro t k hk
    simp only [classifyKeywords, List.foldl_cons] at ih ⊢
    by_cases hm : substrOf kw (pyLower s) = true
    · rw [if_pos hm]
      exact ih _ k (tallyKeys_incKey_sub cat k t hk)
    · rw [if_neg hm]
      exact ih t k hk

lemma TallyInv_classifyKeywords (s : String) {cat : String} (hc : cat ∈ catNames) :
    ∀ (kws : List String) {t : Tally}, TallyInv t → TallyInv (classifyKeywords cat kws s t) := by
  intro kws
  induction kws with
  | nil =>
    intro t h
    simpa [classifyKeywords] using h
  | cons kw rest ih =>
    intro t h
    simp only [classifyKeywords, List.foldl_cons] at ih ⊢
    by_cases hm : substrOf kw (pyLower s) = true
    · rw [if_pos hm]
      exact ih (TallyInv_incKey hc h)
    · rw [if_neg hm]
      exact ih h

lemma tcount_catfold (s : String) :
    ∀ (cats : List (String × List String)) (t : Tally) (k : String),
      tcount (cats.foldl (fun t c => classifyKeywords c.1 c.2 s t) t) k
        = tcount t k
          + (cats.map (fun c => if c.1 = k then matchCnt s c.2 else 0)).sum := by
  intro cats
  induction cats with
  | nil =>
    intro t k
    simp
  | cons c rest ih =>
    intro t k
    simp only [List.foldl_cons, List.map_cons, List.sum_cons]
    rw [ih, tcount_classifyKeywords]
    omega

lemma tcount_classify (s : String) (t : Tally) (k : String) :
    tcount (classify_cause_and_count s t) k
      = tcount t k
        + (categories.map (fun c => if c.1 = k then matchCnt s c.2 else 0)).sum := by
  unfold classify_cause_and_count
  exact tcount_catfold s categories t k

lemma tcount_classify_mono (s : String) (t : Tally) (k : String) :
    tcount t k ≤ tcount (classify_cause_and_count s t) k := by
  rw [tcount_classify]
  exact Nat.le_add_right _ _

lemma tallyKeys_classify_sub (s : String) (t : Tally) (k : String)
    (hk : k ∈ tallyKeys t) : k ∈ tallyKeys (classify_cause_and_count s t) := by
  unfold classify_cause_and_count
  have main : ∀ (cats : List (String × List String)) (t : Tally), k ∈ tallyKeys t →
      k ∈ tallyKeys (cats.foldl (fun t c => classifyKeywords c.1 c.2 s t) t) := by
    intro cats
    induction cats with
    | nil => intro t h; simpa using h
    | cons c rest ih =>
      intro t h
      simp only [List.foldl_cons]
      exact ih _ (tallyKeys_classifyKeywords_sub s c.1 c.2 t k h)
  exact main categories t hk

lemma TallyInv_classify (s : String) {t : Tally} (h : TallyInv t) :
    TallyInv (classify_cause_and_count s t) := by
  unfold classify_cause_and_count
  have main : ∀ (cats : List (String × List String)), (∀ c ∈ cats, c.1 ∈ catNames) →
      ∀ {t : Tally}, TallyInv t →
        TallyInv (cats.foldl (fun t c => classifyKeywords c.1 c.2 s t) t) := by
    intro cats
    induction cats with
    | nil => intro _ t h; simpa using h
    | cons c rest ih =>
      intro hmem t h
      simp only [List.foldl_cons]
      exact ih (fun c hc => hmem c (List.mem_cons_of_mem _ hc))
        (TallyInv_classifyKeywords s (hmem c (List.mem_cons_self _ _)) c.2 h)
  refine main categories ?_ h
  intro c hc
  exact List.mem_map_of_mem Prod.fst hc

/-- Claim C2 (counterexample): the sentence "environment climate" matches two
triggers of the environment category and increments its counter by 2, not by
the claimed exactly 1. -/
theorem classify_double_increment_counterexample :
    classify_cause_and_count "environment climate" [] = [("environment", 2)] ∧
      tcount (classify_cause_and_count "environment climate" []) "environment" = 2 := by
  decide

/-- Claim C2 (amended): for every sentence and category,
`classify_cause_and_count` increments that category's counter by the number
of its trigger substrings occurring (case-insensitively) in the sentence —
at least 1 when any trigger matches, but possibly more — and leaves every
key outside the taxonomy unchanged. -/
theorem classify_increments_per_matching_keyword (s : String) (t : Tally) :
    (∀ c ∈ categories,
        tcount (classify_cause_and_count s t) c.1 = tcount t c.1 + matchCnt s c.2) ∧
      (∀ k, k ∉ catNames → tcount (classify_cause_and_count s t) k = tcount t k) := by
  constructor
  · intro c hc
    rw [tcount_classify]
    simp only [categories, List.mem_cons, List.not_mem_nil, or_false] at hc
    rcases hc with rfl | rfl | rfl | rfl | rfl | rfl | rfl <;>
      simp [categories]
  · intro k hk
    rw [tcount_classify]
    have hz : ∀ x ∈ categories.map (fun c => if c.1 = k then matchCnt s c.2 else 0), x = 0 := by
      intro x hx
      simp only [List.mem_map] at hx
      obtain ⟨c, hc, rfl⟩ := hx
      have hmem : c.1 ∈ catNames := List.mem_map_of_mem Prod.fst hc
      rw [if_neg (fun hh : c.1 = k => hk (hh ▸ hmem))]
    rw [List.sum_eq_zero hz]
    rfl

/-- Witness for C2: evaluating the amended theorem on the environment
category and the sentence "environment climate". -/
theorem classify_increments_witness :
    tcount (classify_cause_and_count "environment climate" []) "environment"
      = tcount ([] : Tally) "environment"
        + matchCnt "environment climate"
            ["environment", "climate", "nature", "sustainability", "conservation", "green"] :=
  (classify_increments_per_matching_keyword "environment climate" []).1
    ("environment", ["environment", "climate", "nature", "sustainability", "conservation", "green"])
    (by decide)

lemma mem_setInsert (s : List String) (x e : String) :
    e ∈ setInsert s x ↔ e ∈ s ∨ e = x := by
  by_cases h : x ∈ s
  · rw [setInsert, if_pos h]
    constructor
    · exact Or.inl
    · rintro (he | rfl)
      · exact he
      · exact h
  · rw [setInsert, if_neg h]
    simp

lemma mem_setUpdate : ∀ (xs s : List String) (e : String),
    e ∈ setUpdate s xs ↔ e ∈ s ∨ e ∈ xs := by
  intro xs
  induction xs with
  | nil =>
    intro s e
    simp [setUpdate]
  | cons x rest ih =>
    intro s e
    have : setUpdate s (x :: rest) = setUpdate (setInsert s x) rest := rfl
    rw [this, ih, mem_setInsert]
    simp only [List.mem_cons]
    tauto

/-- Claim C5: an email candidate is added to the shared email set exactly
when it contains none of the characters `?`, `0`, `_`; the candidate
"a?b@example.com" is rejected and "jane.doe@example.com" is accepted. -/
theorem emails_added_iff :
    (∀ (page : Page) (st : ScrapeState) (e : String),
        e ∈ (extract_information page st).emails ↔
          e ∈ st.emails ∨ (e ∈ page.emailMatches ∧ ∀ c ∈ bad_email_chars, c ∉ e.toList)) ∧
      valid_emails ["a?b@example.com", "jane.doe@example.com"] = ["jane.doe@example.com"] := by
  refine ⟨?_, by decide⟩
  intro page st e
  have hfield : (extract_information page st).emails
      = setUpdate st.emails (valid_emails page.emailMatches) := rfl
  rw [hfield, mem_setUpdate]
  apply or_congr Iff.rfl
  simp [valid_emails, List.mem_filter, List.any_eq_true, List.contains]

/-- Claim C6 (counterexample): the candidate "1.2.345" (a match of the phone
pattern) has only 5 digit characters, so the claimed digit-only-length test
would reject it; the code accepts it because its length check counts the
dots as well. -/
theorem phone_digit_length_counterexample :
    valid_phones ["1.2.345"] = ["1.2.345"] ∧ digitCount "1.2.345" = 5 := by
  decide

/-- Claim C6 (amended): a phone candidate is added to the shared phone set
exactly when its first character is a digit and at least 7 characters remain
after deleting hyphens and spaces (characters such as dots or parentheses
still count towards this length); "555-1234" is accepted and "12" is
rejected. -/
theorem phones_added_iff :
    (∀ (page : Page) (st : ScrapeState) (p : String),
        p ∈ (extract_information page st).phones ↔
          p ∈ st.phones ∨ (p ∈ page.phoneMatches ∧ firstIsDigit p = true ∧
            7 ≤ (stripDashSpace p).length)) ∧
      valid_phones ["555-1234"] = ["555-1234"] ∧ valid_phones ["12"] = [] := by
  refine ⟨?_, by decide, by decide⟩
  intro page st p
  have hfield : (extract_information page st).phones
      = setUpdate st.phones (valid_phones page.phoneMatches) := rfl
  rw [hfield, mem_setUpdate]
  apply or_congr Iff.rfl
  simp [valid_phones, List.mem_filter, ge_iff_le]

lemma FetchInv_extract (page : Page) (st : ScrapeState) (h : FetchInv st) :
    FetchInv (extract_information page st) :=
  h

lemma FetchInv_ssp (fetch : String → Option Page) (link base : String) (st : ScrapeState)
    (h : FetchInv st) : FetchInv (scrape_single_page fetch link base st) := by
  unfold scrape_single_page
  by_cases hg : link ∉ st.visited ∧ substrOf base link = true
  · rw [if_pos hg]
    have hlog : (st.fetch_log ++ [link]).Nodup := by
      rw [← List.concat_eq_append]
      exact List.Nodup.concat (fun hmem => hg.1 (h.2 link hmem)) h.1
    have hsub : ∀ u ∈ st.fetch_log ++ [link], u ∈ setInsert st.visited link := by
      intro u hu
      rcases List.mem_append.mp hu with hu | hu
      · exact (mem_setInsert _ _ _).mpr (Or.inl (h.2 u hu))
      · rcases List.mem_singleton.mp hu with rfl
        exact (mem_setInsert _ _ _).mpr (Or.inr rfl)
    cases fetch link with
    | some page => exact ⟨hlog, hsub⟩
    | none => exact ⟨hlog, hsub⟩
  · rw [if_neg hg]
    exact h

lemma FetchInv_foldl (fetch : String → Option Page) (base : String) :
    ∀ (links : List String) (st : ScrapeState), FetchInv st →
      FetchInv (links.foldl (fun st link => scrape_single_page fetch link base st) st) := by
  intro links
  induction links with
  | nil =>
    intro st h
    exact h
  | cons link rest ih =>
    intro st h
    exact ih _ (FetchInv_ssp fetch link base st h)

/-- Claim C1 (amended): one job is dispatched per discovered link — the
concrete seed page with 2 same-origin links and 1 cross-origin link yields 3
dispatched jobs, of which exactly the 2 same-origin links are fetched — and
every URL is fetched at most once per crawl (the fetch log of any completed
crawl is duplicate-free). -/
theorem crawl_fetches_at_most_once :
    (∀ (fetch : String → Option Page) (base : String) (st : ScrapeState),
        crawl_state fetch base = some st → st.fetch_log.Nodup) ∧
      dispatched_jobs c1_seed_page = 3 ∧
      (crawl_state c1_fetch "s.org").map (fun st => st.fetch_log)
        = some ["s.org", "s.org/a", "s.org/b"] := by
  refine ⟨?_, by decide, by decide⟩
  intro fetch base st h
  unfold crawl_state at h
  cases hfe : fetch base with
  | none =>
    rw [hfe] at h
    exact absurd h (by simp)
  | some main_page =>
    rw [hfe] at h
    simp only [Option.some.injEq] at h
    rw [← h]
    refine (FetchInv_foldl fetch base main_page.links _ ?_).1
    exact FetchInv_extract main_page _ ⟨List.nodup_singleton base, fun u hu => hu⟩

/-- Witness for C1: the amended theorem applied to the concrete two-plus-one
link scenario. -/
theorem crawl_fetches_at_most_once_witness :
    ∃ st, crawl_state c1_fetch "s.org" = some st ∧ st.fetch_log.Nodup :=
  ⟨_, rfl, crawl_fetches_at_most_once.1 c1_fetch "s.org" _ rfl⟩

/-- Claim C1 (counterexample): the seed page with 2 same-origin links and 1
cross-origin link dispatches 3 jobs, not 2 (the skip happens inside the job,
after dispatch), and a cross-origin link that merely contains the seed URL
as a substring is fetched, because the code's origin test is a substring
test. -/
theorem crawl_dispatch_counterexample :
    dispatched_jobs c1_seed_page = 3 ∧
      (crawl_state c1_fetch2 "s.org").map (fun st => st.fetch_log)
        = some ["s.org", "x.com/?u=s.org"] := by
  decide

/-- Claim C8 (counterexample): a job whose fetch fails does change the shared
state: the link stays claimed in the visited set. -/
theorem failed_fetch_state_counterexample :
    scrape_single_page c8_fetch "s.org/a" "s.org" c8_st ≠ c8_st ∧
      (scrape_single_page c8_fetch "s.org/a" "s.org" c8_st).visited = ["s.org", "s.org/a"] := by
  decide

/-- Claim C8 (amended): the crawl aborts producing no report exactly when the
seed fetch fails (the only fatal condition), and a per-link fetch failure
completes its job leaving every aggregation field — emails, phones, mission
sentences, keyword tally — unchanged (only the visited claim and the fetch
log survive such a job). -/
theorem seed_failure_only_abort :
    (∀ (fetch : String → Option Page) (base : String),
        scrape_website fetch base = none ↔ fetch base = none) ∧
      (∀ (fetch : String → Option Page) (link base : String) (st : ScrapeState),
        fetch link = none →
          (scrape_single_page fetch link base st).emails = st.emails ∧
            (scrape_single_page fetch link base st).phones = st.phones ∧
            (scrape_single_page fetch link base st).mission_sentences = st.mission_sentences ∧
            (scrape_single_page fetch link base st).keyword_counter = st.keyword_counter) := by
  constructor
  · intro fetch base
    unfold scrape_website crawl_state
    cases hfe : fetch base with
    | none => simp
    | some main_page => simp
  · intro fetch link base st hf
    unfold scrape_single_page
    by_cases hg : link ∉ st.visited ∧ substrOf base link = true
    · rw [if_pos hg, hf]
      exact ⟨rfl, rfl, rfl, rfl⟩
    · rw [if_neg hg]
      exact ⟨rfl, rfl, rfl, rfl⟩

/-- Witness for C8: the amended theorem applied to the all-failing network:
the crawl from "s.org" aborts with no report, and a failing job from `c8_st`
leaves the keyword tally unchanged. -/
theorem seed_failure_only_abort_witness :
    scrape_website c8_fetch "s.org" = none ∧
      (scrape_single_page c8_fetch "s.org/a" "s.org" c8_st).keyword_counter
        = c8_st.keyword_counter :=
  ⟨(seed_failure_only_abort.1 c8_fetch "s.org").mpr rfl,
    (seed_failure_only_abort.2 c8_fetch "s.org/a" "s.org" c8_st rfl).2.2.2⟩

lemma dropWhile_self (p : Char → Bool) :
    ∀ l : List Char, List.dropWhile p (List.dropWhile p l) = List.dropWhile p l := by
  intro l
  induction l with
  | nil => rfl
  | cons a l ih =>
    by_cases h : p a = true
    · simp [List.dropWhile_cons, h, ih]
    · simp [List.dropWhile_cons, h]

lemma dropWhile_decomp (p : Char → Bool) :
    ∀ l : List Char, ∃ w, l = w ++ List.dropWhile p l := by
  intro l
  induction l with
  | nil => exact ⟨[], rfl⟩
  | cons a l ih =>
    by_cases h : p a = true
    · obtain ⟨w, hw⟩ := ih
      exact ⟨a :: w, by simp [List.dropWhile_cons, h, ← hw]⟩
    · exact ⟨[], by simp [List.dropWhile_cons, h]⟩

lemma dropWhile_head_false (p : Char → Bool) :
    ∀ (l xs : List Char) (x : Char), List.dropWhile p l = x :: xs → p x = false := by
  intro l
  induction l with
  | nil =>
    intro xs x h
    exact absurd h (by simp)
  | cons a l ih =>
    intro xs x h
    by_cases ha : p a = true
    · rw [List.dropWhile_cons, if_pos ha] at h
      exact ih xs x h
    · rw [List.dropWhile_cons, if_neg ha] at h
      cases h
      simpa using ha

lemma stripList_idem (l : List Char) : pyStripList (pyStripList l) = pyStripList l := by
  have hA : (((l.dropWhile pyWs).reverse.dropWhile pyWs).reverse).dropWhile pyWs
      = ((l.dropWhile pyWs).reverse.dropWhile pyWs).reverse := by
    cases hvr : ((l.dropWhile pyWs).reverse.dropWhile pyWs).reverse with
    | nil => simp [hvr]
    | cons x xs =>
      obtain ⟨w, hw⟩ := dropWhile_decomp pyWs (l.dropWhile pyWs).reverse
      have hu2 : l.dropWhile pyWs
          = ((l.dropWhile pyWs).reverse.dropWhile pyWs).reverse ++ w.reverse := by
        have h2 := congrArg List.reverse hw
        simpa [List.reverse_append] using h2
      have hx : pyWs x = false := by
        apply dropWhile_head_false pyWs l (xs ++ w.reverse) x
        rw [hu2, hvr]
        simp
      rw [List.dropWhile_cons, hx]
      simp
  unfold pyStripList
  rw [hA, List.reverse_reverse, dropWhile_self]

lemma pyStrip_idem (s : String) : pyStrip (pyStrip s) = pyStrip s := by
  unfold pyStrip
  rw [show (String.mk (pyStripList s.toList)).toList = pyStripList s.toList from rfl,
    stripList_idem]

lemma missionFold_le (l : List String) :
    ∀ ms : List String, ms.length ≤ 3 →
      (l.foldl (fun ms s => if ms.length < 3 then ms ++ [pyStrip s] else ms) ms).length ≤ 3 := by
  induction l with
  | nil =>
    intro ms h
    exact h
  | cons s rest ih =>
    intro ms h
    rw [List.foldl_cons]
    by_cases hlen : ms.length < 3
    · rw [if_pos hlen]
      refine ih _ ?_
      rw [List.length_append]
      simp only [List.length_singleton]
      omega
    · rw [if_neg hlen]
      exact ih ms h

lemma missionFold_eq (l : List String) :
    ∀ ms : List String,
      l.foldl (fun ms s => if ms.length < 3 then ms ++ [pyStrip s] else ms) ms
        = ms ++ (l.map pyStrip).take (3 - ms.length) := by
  induction l with
  | nil =>
    intro ms
    simp
  | cons s rest ih =>
    intro ms
    rw [List.foldl_cons]
    by_cases hlen : ms.length < 3
    · rw [if_pos hlen, ih]
      obtain ⟨m, hm⟩ : ∃ m, 3 - ms.length = m + 1 := ⟨3 - ms.length - 1, by omega⟩
      have hm2 : 3 - (ms ++ [pyStrip s]).length = m := by
        rw [List.length_append, List.length_singleton]
        omega
      rw [hm2, List.map_cons, hm, List.take_succ_cons, List.append_assoc,
        List.singleton_append]
    · rw [if_neg hlen, ih]
      have h0 : 3 - ms.length = 0 := by omega
      rw [h0]
      simp

lemma addMission_spec (ms valid : List String) :
    addMissionSentences ms valid
      = ms ++ ((sortByLen valid).map pyStrip).take (3 - ms.length) :=
  missionFold_eq (sortByLen valid) ms

lemma mission_candidates_stripped (mm : List String) :
    ∀ x ∈ mission_candidates mm, pyStrip x = x := by
  intro x hx
  unfold mission_candidates at hx
  obtain ⟨y, -, rfl⟩ := List.mem_map.mp hx
  exact pyStrip_idem y

lemma sortByLen_map_strip (mm : List String) :
    (sortByLen (mission_candidates mm)).map pyStrip = sortByLen (mission_candidates mm) := by
  have h : ∀ x ∈ sortByLen (mission_candidates mm), pyStrip x = id x := by
    intro x hx
    exact mission_candidates_stripped mm x ((List.mem_insertionSort lenLe).mp hx)
  rw [List.map_congr_left h, List.map_id]

lemma extract_mission_eq (page : Page) (st : ScrapeState) :
    (extract_information page st).mission_sentences
      = st.mission_sentences ++
          (sortByLen (mission_candidates page.missionMatches)).take
            (3 - st.mission_sentences.length) := by
  have h1 : (extract_information page st).mission_sentences
      = addMissionSentences st.mission_sentences (mission_candidates page.missionMatches) := rfl
  rw [h1, addMission_spec, sortByLen_map_strip]

lemma mission_le_extract (page : Page) (st : ScrapeState)
    (h : st.mission_sentences.length ≤ 3) :
    (extract_information page st).mission_sentences.length ≤ 3 :=
  missionFold_le (sortByLen (mission_candidates page.missionMatches)) st.mission_sentences h

lemma mission_le_ssp (fetch : String → Option Page) (link base : String) (st : ScrapeState)
    (h : st.mission_sentences.length ≤ 3) :
    (scrape_single_page fetch link base st).mission_sentences.length ≤ 3 := by
  unfold scrape_single_page
  by_cases hg : link ∉ st.visited ∧ substrOf base link = true
  · rw [if_pos hg]
    cases fetch link with
    | some page => exact mission_le_extract page _ h
    | none => exact h
  · rw [if_neg hg]
    exact h

lemma mission_le_foldl (fetch : String → Option Page) (base : String) :
    ∀ (links : List String) (st : ScrapeState), st.mission_sentences.length ≤ 3 →
      (links.foldl (fun st link => scrape_single_page fetch link base st) st).mission_sentences.length ≤ 3 := by
  intro links
  induction links with
  | nil =>
    intro st h
    exact h
  | cons link rest ih =>
    intro st h
    exact ih _ (mission_le_ssp fetch link base st h)

/-- Claim C4: the mission sentence list never exceeds 3 entries — it starts
empty, each job step preserves the bound, and the final state of every
completed crawl satisfies it — and within a single page the qualifying
candidates are appended in ascending order of length until the cap of 3 is
reached: the page appends exactly the first `3 - current length` entries of
its length-sorted candidate list. -/
theorem mission_sentences_capped :
    (∀ (fetch : String → Option Page) (base : String) (st : ScrapeState),
        crawl_state fetch base = some st → st.mission_sentences.length ≤ 3) ∧
      (∀ (fetch : String → Option Page) (link base : String) (st : ScrapeState),
        st.mission_sentences.length ≤ 3 →
          (scrape_single_page fetch link base st).mission_sentences.length ≤ 3) ∧
      (∀ (page : Page) (st : ScrapeState),
        (extract_information page st).mission_sentences
          = st.mission_sentences ++
              (sortByLen (mission_candidates page.missionMatches)).take
                (3 - st.mission_sentences.length)) ∧
      (∀ l : List String, List.Sorted lenLe (sortByLen l)) := by
  refine ⟨?_, mission_le_ssp, extract_mission_eq, fun l => List.sorted_insertionSort lenLe l⟩
  intro fetch base st h
  unfold crawl_state at h
  cases hfe : fetch base with
  | none =>
    rw [hfe] at h
    exact absurd h (by simp)
  | some main_page =>
    rw [hfe] at h
    simp only [Option.some.injEq] at h
    rw [← h]
    refine mission_le_foldl fetch base main_page.links _ ?_
    exact mission_le_extract main_page _ (by simp)

/-- Witness for C4: the cap holds for the completed crawl of the concrete
mission-bearing network. -/
theorem mission_sentences_capped_witness :
    ∃ st, crawl_state c4_fetch "s.org" = some st ∧ st.mission_sentences.length ≤ 3 :=
  ⟨_, rfl, mission_sentences_capped.1 c4_fetch "s.org" _ rfl⟩

/-- Claim C3 (counterexample): classifying an animal sentence and then an
environment sentence yields two tied counts with "animal" inserted first;
the code returns ("animal", "environment") — `Counter.most_common` breaks
ties by insertion order — while the spec's declaration-order tie-break
(`spec_get_main_and_secondary_causes`, modelled from the spec's words) would
return ("environment", "animal"). -/
theorem causes_tie_break_counterexample :
    c3_tie_tally = [("animal", 1), ("environment", 1)] ∧
      get_main_and_secondary_causes c3_tie_tally = ("animal", "environment") ∧
      spec_get_main_and_secondary_causes c3_tie_tally = ("environment", "animal") := by
  decide

/-- Claim C3 (amended): `get_main_and_secondary_causes` ranks entries by
descending count with a stable sort — `most_common t` is a permutation of
`t`, sorted by descending count, and keeps tied entries in their tally
order, i.e. ties are broken by the order in which categories were first
counted, not by taxonomy declaration order — the top entry is the primary
cause and the next the secondary, with "None" for an empty tally and for a
missing second entry; the environment-3 / animal-1 tally yields
("environment", "animal"). -/
theorem causes_ranked_descending :
    (∀ t : Tally, (most_common t).Perm t) ∧
      (∀ t : Tally, List.Sorted countGe (most_common t)) ∧
      (∀ (t : Tally) (a b : String × Nat),
        countGe a b → List.Sublist [a, b] t → List.Sublist [a, b] (most_common t)) ∧
      get_main_and_secondary_causes [] = ("None", "None") ∧
      (∀ p : String × Nat, get_main_and_secondary_causes [p] = (p.1, "None")) ∧
      get_main_and_secondary_causes c3_example_tally = ("environment", "animal") := by
  refine ⟨fun t => List.perm_insertionSort countGe t,
    fun t => List.sorted_insertionSort countGe t,
    fun t a b hab hsub => List.pair_sublist_insertionSort hab hsub,
    by decide, fun p => rfl, by decide⟩

/-- Witness for C3: the stability clause applied to the concrete tied tally:
the pair stays in insertion order in the ranked list. -/
theorem causes_ranked_descending_witness :
    List.Sublist [(("animal" : String), 1), (("environment" : String), 1)]
      (most_common [(("animal" : String), 1), (("environment" : String), 1)]) :=
  causes_ranked_descending.2.2.1 [(("animal" : String), 1), (("environment" : String), 1)]
    (("animal" : String), 1) (("environment" : String), 1)
    (Nat.le_refl 1) (List.Sublist.refl _)

lemma TallyInv_sentfold :
    ∀ (l : List String) (t : Tally), TallyInv t →
      TallyInv (l.foldl
        (fun t sentence =>
          if filter_valid_sentence sentence then classify_cause_and_count sentence t else t)
        t) := by
  intro l
  induction l with
  | nil =>
    intro t h
    exact h
  | cons sentence rest ih =>
    intro t h
    rw [List.foldl_cons]
    by_cases hf : filter_valid_sentence sentence = true
    · rw [if_pos hf]
      exact ih _ (TallyInv_classify sentence h)
    · rw [if_neg hf]
      exact ih t h

lemma TallyInv_extract (page : Page) (st : ScrapeState) (h : TallyInv st.keyword_counter) :
    TallyInv (extract_information page st).keyword_counter :=
  TallyInv_sentfold page.textSentences st.keyword_counter h

lemma TallyInv_ssp (fetch : String → Option Page) (link base : String) (st : ScrapeState)
    (h : TallyInv st.keyword_counter) :
    TallyInv (scrape_single_page fetch link base st).keyword_counter := by
  unfold scrape_single_page
  by_cases hg : link ∉ st.visited ∧ substrOf base link = true
  · rw [if_pos hg]
    cases fetch link with
    | some page => exact TallyInv_extract page _ h
    | none => exact h
  · rw [if_neg hg]
    exact h

lemma TallyInv_foldl (fetch : String → Option Page) (base : String) :
    ∀ (links : List String) (st : ScrapeState), TallyInv st.keyword_counter →
      TallyInv (links.foldl
        (fun st link => scrape_single_page fetch link base st) st).keyword_counter := by
  intro links
  induction links with
  | nil =>
    intro st h
    exact h
  | cons link rest ih =>
    intro st h
    exact ih _ (TallyInv_ssp fetch link base st h)

/-- Claim C10: in every completed crawl, each key of the shared keyword
tally is one of the seven taxonomy category names with a positive count,
and classification is monotone: it never decreases a counter and never
removes a key, so the ranking step only ever sees positive counts over
taxonomy names. -/
theorem keyword_tally_invariant :
    (∀ (fetch : String → Option Page) (base : String) (st : ScrapeState),
        crawl_state fetch base = some st → TallyInv st.keyword_counter) ∧
      (∀ (s : String) (t : Tally) (k : String),
        tcount t k ≤ tcount (classify_cause_and_count s t) k) ∧
      (∀ (s : String) (t : Tally) (k : String),
        k ∈ tallyKeys t → k ∈ tallyKeys (classify_cause_and_count s t)) := by
  refine ⟨?_, tcount_classify_mono, tallyKeys_classify_sub⟩
  intro fetch base st h
  unfold crawl_state at h
  cases hfe : fetch base with
  | none =>
    rw [hfe] at h
    exact absurd h (by simp)
  | some main_page =>
    rw [hfe] at h
    simp only [Option.some.injEq] at h
    rw [← h]
    refine TallyInv_foldl fetch base main_page.links _ ?_
    refine TallyInv_extract main_page _ ?_
    intro p hp
    exact absurd hp (List.not_mem_nil p)

/-- Witness for C10: the invariant holds for the completed crawl of the
concrete network, and a key survives a further classification. -/
theorem keyword_tally_invariant_witness :
    (∃ st, crawl_state c4_fetch "s.org" = some st ∧ TallyInv st.keyword_counter) ∧
      "environment" ∈ tallyKeys (classify_cause_and_count "anything" [("environment", 3)]) :=
  ⟨⟨_, rfl, keyword_tally_invariant.1 c4_fetch "s.org" _ rfl⟩,
    keyword_tally_invariant.2.2 "anything" [("environment", 3)] "environment" (by decide)⟩

end Webscraper
